import Mathlib

/-!
Verification development for the expression-parsing and type-checking core of
a JSON style-expression language (`src/unnamed/part_000`, i.e. the module
`expression.js`, and `src/src/style-spec/function/definitions/curve.js`).

JavaScript numbers are modelled as rationals (`Rat`); JSON values as an
inductive type that also includes the JavaScript values `undefined` and
"bare object", both of which the dispatcher treats specially.

The module `types.js` is imported by both source files but is not part of
the sources; its type constructors (`NullType`, ..., `array`, `toString`)
are modelled from the spec (section 3 "Type"): a closed tagged variant with
capitalized kind tags as compared by `checkSubtype` in the source
(`'Error'`, `'Value'`, `'Array'`), plus a display name used in messages.
-/

namespace MapboxExpr

/-- A JSON/JavaScript value as seen by the parser.  `undef` models the
JavaScript value `undefined` and `obj` a bare (non-array) object; both are
rejected by the dispatcher with dedicated diagnostics. -/
inductive JSON where
  | null
  | bool (b : Bool)
  | num (q : Rat)
  | str (s : String)
  | arr (elems : List JSON)
  | obj
  | undef

mutual

/-- Structural equality test for JSON values. -/
def JSON.beq : JSON → JSON → Bool
  | .null, .null => true
  | .bool a, .bool b => a == b
  | .num a, .num b => a == b
  | .str a, .str b => a == b
  | .arr a, .arr b => JSON.beqList a b
  | .obj, .obj => true
  | .undef, .undef => true
  | _, _ => false

/-- Structural equality test for lists of JSON values. -/
def JSON.beqList : List JSON → List JSON → Bool
  | [], [] => true
  | a :: as, b :: bs => JSON.beq a b && JSON.beqList as bs
  | _, _ => false

end

mutual

theorem JSON.beq_iff : (a b : JSON) → (JSON.beq a b = true ↔ a = b)
  | .null, b => by cases b <;> simp [JSON.beq]
  | .bool x, b => by cases b <;> simp [JSON.beq]
  | .num x, b => by cases b <;> simp [JSON.beq]
  | .str x, b => by cases b <;> simp [JSON.beq]
  | .arr xs, b => by
      cases b <;> simp [JSON.beq]
      exact JSON.beqList_iff xs _
  | .obj, b => by cases b <;> simp [JSON.beq]
  | .undef, b => by cases b <;> simp [JSON.beq]

theorem JSON.beqList_iff : (as bs : List JSON) → (JSON.beqList as bs = true ↔ as = bs)
  | [], bs => by cases bs <;> simp [JSON.beqList]
  | a :: as, [] => by simp [JSON.beqList]
  | a :: as, b :: bs => by
      simp [JSON.beqList, Bool.and_eq_true, JSON.beq_iff a b, JSON.beqList_iff as bs]

end

instance : DecidableEq JSON := fun a b => decidable_of_iff _ (JSON.beq_iff a b)

/-- The closed set of structural types.  Modelled from the spec: `types.js`
is not among the sources; the spec fixes the variants `Null`, `Number`,
`String`, `Boolean`, `Object`, `Color`, `Value`, `Array(itemType, length)`
and `Error`. -/
inductive Ty where
  | null
  | number
  | string
  | boolean
  | object
  | color
  | value
  | array (itemType : Ty) (N : Option Nat)
  | error
deriving DecidableEq

abbrev NullType : Ty := .null
abbrev NumberType : Ty := .number
abbrev StringType : Ty := .string
abbrev BooleanType : Ty := .boolean
abbrev ObjectType : Ty := .object
abbrev ColorType : Ty := .color
abbrev ValueType : Ty := .value
abbrev ErrorType : Ty := .error

/-- The `kind` tag of a type.  Modelled from the spec: the tags are exactly
the strings compared by `checkSubtype` in the source (`'Error'`, `'Value'`,
`'Array'`, and the primitive kinds). -/
def Ty.kind : Ty → String
  | .null => "Null"
  | .number => "Number"
  | .string => "String"
  | .boolean => "Boolean"
  | .object => "Object"
  | .color => "Color"
  | .value => "Value"
  | .array _ _ => "Array"
  | .error => "Error"

/-- The `itemType` property read by `curve.js` (undefined, i.e. `none`, on
non-array types). -/
def Ty.itemTypeOpt : Ty → Option Ty
  | .array it _ => some it
  | _ => none

/-- `toString` of the missing `types.js`, modelled from the spec: renders a
type for diagnostic messages. -/
def Ty.toStr : Ty → String
  | .array it n =>
      "Array<" ++ Ty.toStr it ++
        (match n with | some k => ", " ++ toString k | none => "") ++ ">"
  | t => t.kind

/-- The `name` property read by `curve.js` in its "not interpolatable"
message.  Modelled from the spec, which says the diagnostic references the
type. -/
def Ty.tyName : Ty → String := Ty.kind

/-- An interpolation strategy (`InterpolationType` in `curve.js`). -/
inductive Interp where
  | step
  | linear
  | exponential (base : Rat)
  | cubicBezier (controlPoints : List Rat)
deriving DecidableEq

def Interp.name : Interp → String
  | .step => "step"
  | .linear => "linear"
  | .exponential _ => "exponential"
  | .cubicBezier _ => "cubic-bezier"

/-- A parsed expression.  The sources fully specify only the `Curve`
variant; every other registered kind is an external collaborator and is
modelled as an opaque node carrying its `key`, its resolved `type` and its
serialized JSON form. -/
inductive Expression where
  | curve (key : String) (type : Ty) (interpolation : Interp)
      (input : Expression) (stops : List (Rat × Expression))
  | ext (key : String) (type : Ty) (serial : JSON)

def Expression.type : Expression → Ty
  | .curve _ t _ _ _ => t
  | .ext _ t _ => t

def Expression.key : Expression → String
  | .curve k _ _ _ _ => k
  | .ext k _ _ => k

/-- The serialized form of an interpolation strategy, as produced by
`Curve#serialize` (lines 134-140 of `curve.js`): `[name]` for step/linear,
`[name, base]` for exponential, `[name, c0, c1, c2, c3]` for cubic-bezier. -/
def serializeInterp : Interp → JSON
  | .step => .arr [.str "step"]
  | .linear => .arr [.str "linear"]
  | .exponential base => .arr [.str "exponential", .num base]
  | .cubicBezier cps => .arr (.str "cubic-bezier" :: cps.map JSON.num)

mutual

/-- `Curve#serialize` (lines 132-147 of `curve.js`); opaque external
expressions serialize to the JSON form they carry. -/
def Expression.serialize : Expression → JSON
  | .ext _ _ s => s
  | .curve _ _ interpolation input stops =>
      .arr (.str "curve" :: serializeInterp interpolation ::
        Expression.serialize input :: serializeStops stops)

/-- The per-stop tail of `Curve#serialize`: `label₁, valueJSON₁, ...`. -/
def serializeStops : List (Rat × Expression) → List JSON
  | [] => []
  | (label, e) :: rest => .num label :: Expression.serialize e :: serializeStops rest

end

/-- `Scope` (lines 44-69 of the source): a chain of binding frames. -/
inductive Scope where
  | mk (parent : Option Scope) (bindings : List (String × Expression))

/-- `Scope#concat` (line 55): a new frame over `this`. -/
def Scope.concat (s : Scope) (bindings : List (String × Expression)) : Scope :=
  .mk (some s) bindings

/-- A registry entry (`Class<Expression>` in the source): either the fully
specified Curve kind or an external kind, identified by a number whose
parsing behaviour is supplied by an environment (see `ExtEnv`). -/
inductive Definition where
  | curve
  | ext (id : Nat)
deriving DecidableEq

/-- `ParsingError` (lines 30-38 of the source). -/
structure ParsingError where
  key : String
  message : String
deriving DecidableEq

/-- The expected type held by a parsing context.  `curve.js` calls
`context.concat(2, 'curve')`, placing the *string* `'curve'` in the
`expectedType` parameter of `ParsingContext.concat` as defined in the
source module; the slot therefore holds either a type or a string. -/
inductive ETy where
  | ofTy (t : Ty)
  | ofStr (s : String)
deriving DecidableEq

/-- `ParsingContext` (lines 75-135 of the source).  The `errors` array is
shared by reference across the whole parse tree; the field here is the
identity of that shared array, while its contents are threaded explicitly
through the parsing functions as a state value. -/
structure ParsingContext where
  definitions : String → Option Definition
  path : List Nat
  key : String
  scope : Scope
  errors : Nat
  expectedType : Option ETy

/-- The key derived from a path: `path.map(part => "[" + part + "]").join("")`. -/
def keyOfPath (path : List Nat) : String :=
  String.join (path.map (fun part => "[" ++ toString part ++ "]"))

/-- The `ParsingContext` constructor (lines 88-101): derives `key` from
`path`. -/
def ParsingContext.make (definitions : String → Option Definition)
    (path : List Nat) (expectedType : Option ETy) (scope : Scope)
    (errors : Nat) : ParsingContext :=
  { definitions := definitions, path := path, key := keyOfPath path,
    scope := scope, errors := errors, expectedType := expectedType }

/-- `ParsingContext#concat` (lines 111-121): path extended by `index`,
optionally a new scope frame, expected type taken from the argument only
(`expectedType || null`), `definitions` and `errors` copied by reference. -/
def ParsingContext.concat (c : ParsingContext) (index : Nat)
    (expectedType : Option ETy)
    (bindings : Option (List (String × Expression))) : ParsingContext :=
  ParsingContext.make c.definitions (c.path ++ [index]) expectedType
    (match bindings with
     | some bs => c.scope.concat bs
     | none => c.scope)
    c.errors

/-- `ParsingContext#error` (lines 130-134): push one `ParsingError` whose
key is `this.key` extended by the child indices, and return `null`.  The
pushed-to list is the threaded state standing for the shared array. -/
def ParsingContext.error (c : ParsingContext) (message : String)
    (keys : List Nat) (errs : List ParsingError) :
    Option α × List ParsingError :=
  (none, errs ++ [⟨c.key ++ keyOfPath keys, message⟩])

/-- Append the failure message to the sink when a context was supplied
(`if (context) context.error(error)` in `checkSubtype`). -/
def pushErr (context : Option ParsingContext) (message : String)
    (errs : List ParsingError) : List ParsingError :=
  match context with
  | some c => errs ++ [⟨c.key, message⟩]
  | none => errs

/-- The failure message of `checkSubtype` (line 196). -/
def subtypeErr (expected t : Ty) : String :=
  "Expected " ++ Ty.toStr expected ++ " but found " ++ Ty.toStr t ++ " instead."

/-- Rank used only for the termination measure of `checkSubtype`: the
expected type steps from `Value` to a union member, and from an array to
its item type. -/
def tyRank : Ty → Nat
  | .value => 2
  | .array _ _ => 1
  | _ => 0

/-- `checkSubtype` (lines 191-244 of the source).  Returns the error
message (or `none` on success) together with the updated diagnostics list;
the recursive probes for union members and array item types pass no
context, exactly as in the source. -/
def checkSubtype : Ty → Ty → Option ParsingContext → List ParsingError →
    Option String × List ParsingError
  -- Error is a subtype of every type (line 199)
  | _, .error, _, errs => (none, errs)
  | .value, .value, _, errs => (none, errs)
  | .value, t, context, errs =>
    -- succeed iff some member of the fixed union accepts `t` (lines 205-219)
    if (checkSubtype NullType t none []).1 = none ∨
       (checkSubtype NumberType t none []).1 = none ∨
       (checkSubtype StringType t none []).1 = none ∨
       (checkSubtype BooleanType t none []).1 = none ∨
       (checkSubtype ColorType t none []).1 = none ∨
       (checkSubtype ObjectType t none []).1 = none ∨
       (checkSubtype (Ty.array ValueType none) t none []).1 = none then
      (none, errs)
    else
      (some (subtypeErr .value t), pushErr context (subtypeErr .value t) errs)
  | .array ei en, .array ti tn, context, errs =>
    -- item compatibility, then arity (lines 223-234)
    if (checkSubtype ei ti none []).1 ≠ none then
      (some (subtypeErr (.array ei en) (.array ti tn)),
       pushErr context (subtypeErr (.array ei en) (.array ti tn)) errs)
    else
      match en with
      | some k =>
        if tn = some k then (none, errs)
        else
          (some (subtypeErr (.array ei en) (.array ti tn)),
           pushErr context (subtypeErr (.array ei en) (.array ti tn)) errs)
      | none => (none, errs)
  | .array ei en, t, context, errs =>
    (some (subtypeErr (.array ei en) t), pushErr context (subtypeErr (.array ei en) t) errs)
  | expected, t, context, errs =>
    -- same kind tag, payloads ignored (lines 239-243)
    if t.kind = expected.kind then (none, errs)
    else (some (subtypeErr expected t), pushErr context (subtypeErr expected t) errs)
termination_by expected t _ _ => (sizeOf t, tyRank expected)
decreasing_by
  all_goals simp_wf
  all_goals first
  | (apply Prod.Lex.right; simp [tyRank, NullType, NumberType, StringType,
      BooleanType, ColorType, ObjectType, ValueType])
  | (apply Prod.Lex.left; omega)

/-- The runtime behaviour of `checkSubtype` when the expected argument is a
string (as happens for the `'curve'` value that `curve.js` places in
`expectedType`): a string has no `kind` property, so none of the branches
match and the check fails for every actual type except `Error`. -/
def checkSubtypeStr (s : String) (t : Ty) (context : Option ParsingContext)
    (errs : List ParsingError) : Option String × List ParsingError :=
  let err := "Expected " ++ s ++ " but found " ++ Ty.toStr t ++ " instead."
  match t with
  | .error => (none, errs)
  | _ => (some err, pushErr context err errs)

/-- `checkSubtype` as invoked by the dispatcher on the `expectedType` slot,
which may hold a type or a string. -/
def checkSubtypeE : ETy → Ty → Option ParsingContext → List ParsingError →
    Option String × List ParsingError
  | .ofTy expected, t, context, errs => checkSubtype expected t context errs
  | .ofStr s, t, context, errs => checkSubtypeStr s t context errs

/-- The members probed by the `Value` branch of `checkSubtype`
(lines 205-213), in source order. -/
def valueMembers : List Ty :=
  [NullType, NumberType, StringType, BooleanType, ColorType, ObjectType,
   Ty.array ValueType none]

/-- The string produced by JavaScript `typeof` on a JSON value, used only
inside diagnostic messages. -/
def typeofStr : JSON → String
  | .null => "object"
  | .bool _ => "boolean"
  | .num _ => "number"
  | .str _ => "string"
  | .arr _ => "object"
  | .obj => "object"
  | .undef => "undefined"

/-- Display form of a JSON value (JavaScript `String(...)`), used only
inside diagnostic messages; the exact rendering is not significant. -/
def jshow : JSON → String
  | .null => "null"
  | .undef => "undefined"
  | .bool true => "true"
  | .bool false => "false"
  | .num q => toString q
  | .str s => s
  | .arr _ => "[array]"
  | .obj => "[object Object]"

/-- The interpolation-resolution block of `Curve.parse` (lines 43-74 of
`curve.js`): maps the first curve argument to an `Interp` or to the single
diagnostic (message and child keys) that the block reports via
`context.error`. -/
def resolveInterpolation : JSON → Except (String × List Nat) Interp
  | .arr (first :: iRest) =>
    match first with
    | .str "step" => .ok .step
    | .str "linear" => .ok .linear
    | .str "exponential" =>
      -- interpolation[1] must be numeric (lines 52-54)
      (match iRest.headD .undef with
       | .num base => .ok (.exponential base)
       | _ => .error ("Exponential interpolation requires a numeric base.", [1, 1]))
    | .str "cubic-bezier" =>
      -- exactly four numeric control points, each in [0, 1] (lines 60-66)
      let controlPoints := iRest
      if controlPoints.length ≠ 4 ∨
         controlPoints.any (fun te =>
           match te with
           | .num q => decide (q < 0) || decide (q > 1)
           | _ => true) then
        .error ("cubic bezier interpolation requires four numeric arguments with values between 0 and 1.", [1])
      else
        .ok (.cubicBezier (controlPoints.filterMap (fun te =>
          match te with
          | .num q => some q
          | _ => none)))
    | other => .error ("Unknown interpolation type " ++ jshow other, [1, 0])
  | itp =>
    -- not an array, or an empty array (lines 43-45)
    .error ("Expected an interpolation type expression, but found " ++ jshow itp ++ " instead.", [1])

/-- The type of a sub-expression parser as threaded into `Curve.parse`:
raw JSON, child context, current shared-error-list contents. -/
def SubParse : Type :=
  JSON → ParsingContext → List ParsingError → Option Expression × List ParsingError

def litLabelMsg : String :=
  "Input/output pairs for \"curve\" expressions must be defined using literal numeric values (not computed expressions) for the input values."

def ascendMsg : String :=
  "Input/output pairs for \"curve\" expressions must be arranged with input values in strictly ascending order."

/-- The stop loop of `Curve.parse` (lines 79-98 of `curve.js`), walking the
flattened label/value list two elements at a time.  `i` is the source's
loop index into `rest`; an odd trailing element makes `rest[i + 1]`
undefined, which is passed on to the sub-parser exactly as in the source.
Note that `curve.js` hands the string `'curve'` to `concat` in the
`expectedType` position, and passes the running `outputType` as a third
argument to the two-parameter `parseExpression`, where it is discarded; the
running `outputType` therefore only feeds the final interpolatability check
and the constructed node's type. -/
def curveStops (sub : SubParse) (context : ParsingContext) :
    List JSON → Nat → List (Rat × Expression) → Option Ty → List ParsingError →
    Option (List (Rat × Expression) × Option Ty) × List ParsingError
  | [], _, stops, outputType, errs => (some (stops, outputType), errs)
  | [label], i, stops, outputType, errs =>
    -- odd trailing element: `rest[i + 1]` is undefined; on the (for the
    -- dispatcher impossible) event that the sub-parser accepts it, the
    -- loop index then moves past the end and the loop exits
    match label with
    | .num q =>
      if (match stops.getLast? with
          | some prev => decide (prev.1 > q)
          | none => false) = true then
        context.error ascendMsg [i + 3] errs
      else
        match sub .undef (context.concat (i + 4) (some (.ofStr "curve")) none) errs with
        | (none, errs') => (none, errs')
        | (some parsed, errs') =>
          (some (stops ++ [(q, parsed)],
                 match outputType with
                 | some t => some t
                 | none => some parsed.type), errs')
    | _ => context.error litLabelMsg [i + 3] errs
  | label :: value :: tail, i, stops, outputType, errs =>
    match label with
    | .num q =>
      if (match stops.getLast? with
          | some prev => decide (prev.1 > q)
          | none => false) = true then
        context.error ascendMsg [i + 3] errs
      else
        match sub value (context.concat (i + 4) (some (.ofStr "curve")) none) errs with
        | (none, errs') => (none, errs')
        | (some parsed, errs') =>
          curveStops sub context tail (i + 2) (stops ++ [(q, parsed)])
            (match outputType with
             | some t => some t
             | none => some parsed.type)
            errs'
    | _ => context.error litLabelMsg [i + 3] errs

/-- The message of the final interpolatability check (line 104 of
`curve.js`). -/
def notInterpMsg (t : Ty) (interpolation : Interp) : String :=
  "Type " ++ t.tyName ++ " is not interpolatable, and thus cannot be used as a " ++
    interpolation.name ++ " curve\x27s output type."

/-- `Curve.parse` (lines 36-108 of `curve.js`), parameterized by the
sub-expression parser it re-enters (the dispatcher).  The `outputType`
being still unset after the loop can only happen when the loop body never
ran, which the arity check excludes; the source would crash reading
`outputType.kind` there, modelled as a bare failure. -/
def curveParse (sub : SubParse) (args : List JSON) (context : ParsingContext)
    (expectedType : Option Ty) (errs : List ParsingError) :
    Option Expression × List ParsingError :=
  let args' := args.drop 1
  if args'.length < 4 then
    context.error
      ("Expected at least 2 arguments, but found only " ++ toString args'.length ++ ".")
      [] errs
  else
    match args' with
    | interpolation :: input :: rest =>
      match resolveInterpolation interpolation with
      | .error (msg, keys) => context.error msg keys errs
      | .ok interp =>
        match sub input (context.concat 2 (some (.ofStr "curve")) none) errs with
        | (none, errs₁) => (none, errs₁)
        | (some inputE, errs₁) =>
          match curveStops sub context rest 0 [] expectedType errs₁ with
          | (none, errs₂) => (none, errs₂)
          | (some (stops, outputType), errs₂) =>
            match outputType with
            | none => (none, errs₂)
            | some t =>
              if interp.name ≠ "step" ∧ t ≠ NumberType ∧ t ≠ ColorType ∧
                 ¬(t.kind = "array" ∧ t.itemTypeOpt = some NumberType) then
                context.error (notInterpMsg t interp) [1] errs₂
              else
                (some (.curve context.key t interp inputE stops), errs₂)
    | _ => (none, errs)

/-- The behaviours of the externally registered expression kinds: for each
identifier, a parser taking the raw operator array and the context
(`Expression.parse(args, context)` of the interface in the source). -/
def ExtEnv : Type :=
  Nat → List JSON → ParsingContext → List ParsingError → Option Expression × List ParsingError

/-- The call `Expr.parse(expr, context)` of the dispatcher (line 164 of the
source): the registered kind's parser applied to the raw operator array and
the context — and nothing else; in particular no expected type is passed,
so `Curve.parse` always runs with its optional `expectedType` parameter
absent. -/
def runDefinition (env : ExtEnv) (sub : SubParse) (d : Definition)
    (args : List JSON) (context : ParsingContext) (errs : List ParsingError) :
    Option Expression × List ParsingError :=
  match d with
  | .curve => curveParse sub args context none errs
  | .ext id => env id args context errs

/-- `parseExpression` (lines 146-181 of the source), with explicit
recursion fuel; every recursive descent into a sub-expression spends one
unit, and all theorems assume fuel exceeding the JSON nesting depth.
Scalars are first wrapped as `["literal", value]`; a nonempty array
dispatches on its operator name through `context.definitions`, and a
successfully parsed expression is checked against `context.expectedType`
(when set) with the context as diagnostics sink. -/
def parseExpression (env : ExtEnv) :
    Nat → JSON → ParsingContext → List ParsingError →
    Option Expression × List ParsingError
  | 0, _, _, errs => (none, errs)
  | fuel + 1, rawExpr, context, errs =>
    let expr := match rawExpr with
      | .null => JSON.arr [.str "literal", .null]
      | .str s => JSON.arr [.str "literal", .str s]
      | .bool b => JSON.arr [.str "literal", .bool b]
      | .num q => JSON.arr [.str "literal", .num q]
      | e => e
    match expr with
    | .arr [] =>
      context.error
        "Expected an array with at least one element. If you wanted a literal array, use [\"literal\", []]."
        [] errs
    | .arr (op :: opRest) =>
      match op with
      | .str opName =>
        match context.definitions opName with
        | some d =>
          match runDefinition env (parseExpression env fuel) d (.str opName :: opRest) context errs with
          | (none, errs₁) => (none, errs₁)
          | (some parsed, errs₁) =>
            match context.expectedType with
            | some et =>
              (match checkSubtypeE et parsed.type (some context) errs₁ with
               | (some _, errs₂) => (none, errs₂)
               | (none, errs₂) => (some parsed, errs₂))
            | none => (some parsed, errs₁)
        | none =>
          context.error
            ("Unknown expression \"" ++ opName ++ "\". If you wanted a literal array, use [\"literal\", [...]].")
            [0] errs
      | _ =>
        context.error
          ("Expression name must be a string, but found " ++ typeofStr op ++ " instead. If you wanted a literal array, use [\"literal\", [...]].")
          [0] errs
    | .undef => context.error "\x27undefined\x27 value invalid. Use null instead." [] errs
    | .obj => context.error "Bare objects invalid. Use [\"literal\", \x7b...\x7d] instead." [] errs
    | other => context.error ("Expected an array, but found " ++ typeofStr other ++ " instead.") [] errs

/-! ## Concrete fixtures used by witnesses and counterexamples -/

/-- An external-kind behaviour whose expressions have type `Error`; since
`Error` is a subtype of every type, such expressions pass every expected
type, including the stray string `'curve'` placed in `expectedType` by
`Curve.parse`'s `concat` calls. -/
def extEnvW : ExtEnv := fun _ args ctx errs =>
  (some (.ext ctx.key ErrorType (.arr args)), errs)

/-- A registry holding the Curve kind under `"curve"` and one external kind
under `"e"`. -/
def defsW : String → Option Definition := fun op =>
  if op = "curve" then some .curve else if op = "e" then some (.ext 0) else none

def scopeW : Scope := .mk none []

/-- A root context over `defsW` with no expected type. -/
def ctxW : ParsingContext := ParsingContext.make defsW [] none scopeW 0

/-- A sub-parser that always fails without recording anything (only used
where the sub-parser is never consulted). -/
def subFailW : SubParse := fun _ _ errs => (none, errs)

/-! ## Theorems about the claims -/

/-- C9: `ParsingContext.concat` produces a child context whose path is the
parent's path extended with the index, whose `definitions` and `errors`
(the reference to the shared error array) are the parent's, whose scope is
the parent's scope — or a fresh frame over it when bindings are given — and
whose expected type is exactly the supplied argument (in particular the
parent's `expectedType` is never inherited).  The parent is a value and is
unchanged. -/
theorem concat_fields (c : ParsingContext) (index : Nat)
    (expectedType : Option ETy) (bindings : Option (List (String × Expression))) :
    (c.concat index expectedType bindings).path = c.path ++ [index] ∧
    (c.concat index expectedType bindings).definitions = c.definitions ∧
    (c.concat index expectedType bindings).errors = c.errors ∧
    (c.concat index expectedType bindings).scope =
      (match bindings with
       | some bs => c.scope.concat bs
       | none => c.scope) ∧
    (c.concat index expectedType bindings).expectedType = expectedType := by
  simp [ParsingContext.concat, ParsingContext.make]

/-- C2 (counterexample): the claim says `checkSubtype` with expected type
`Value` fails on actual type `Number`; in the code it succeeds, because
`Number` is itself a member of the union probed by the `Value` branch. -/
theorem value_number_succeeds_counterexample :
    checkSubtype ValueType NumberType none [] = (none, []) := by
  simp [checkSubtype.eq_def]

/-- C2 (amended): `checkSubtype` with expected type `Value` succeeds on
actual type `Value`, on actual type `Array(Value, unconstrained)`, and also
on actual type `Number`. -/
theorem checkSubtype_value_examples :
    (checkSubtype ValueType ValueType none []).1 = none ∧
    (checkSubtype ValueType (Ty.array ValueType none) none []).1 = none ∧
    (checkSubtype ValueType NumberType none []).1 = none := by
  refine ⟨?_, ?_, ?_⟩ <;> simp [checkSubtype.eq_def]

/-- C3: with expected type `Value`, `checkSubtype` succeeds on `Value`
itself, and otherwise succeeds exactly when some member of the fixed union
{Null, Number, String, Boolean, Color, Object, Array(Value, unconstrained)}
accepts the actual type; the member probes run without a diagnostics sink,
so on success nothing is recorded, and on failure exactly the single outer
error naming expected and actual is recorded. -/
theorem checkSubtype_value_characterization (t : Ty) (c : ParsingContext)
    (errs : List ParsingError) :
    (t = ValueType → checkSubtype ValueType t (some c) errs = (none, errs)) ∧
    (t ≠ ValueType →
      ((checkSubtype ValueType t (some c) errs).1 = none ↔
        ∃ m ∈ valueMembers, (checkSubtype m t none []).1 = none)) ∧
    ((checkSubtype ValueType t (some c) errs).1 = none →
      (checkSubtype ValueType t (some c) errs).2 = errs) ∧
    (∀ msg, (checkSubtype ValueType t (some c) errs).1 = some msg →
      (checkSubtype ValueType t (some c) errs).2 = errs ++ [⟨c.key, msg⟩] ∧
        msg = subtypeErr ValueType t) := by
  by_cases hv : t = ValueType
  · subst hv
    refine ⟨fun _ => by rw [checkSubtype.eq_def], fun h => absurd rfl h, ?_, ?_⟩
    · rw [checkSubtype.eq_def]; simp
    · rw [checkSubtype.eq_def]; simp
  · by_cases he : t = ErrorType
    · subst he
      refine ⟨fun h => absurd h hv, fun _ => ?_, ?_, ?_⟩
      · rw [checkSubtype.eq_def]
        simp [valueMembers]
        exact Or.inl (by rw [checkSubtype.eq_def])
      · rw [checkSubtype.eq_def]; simp
      · rw [checkSubtype.eq_def]; simp
    · have harm : checkSubtype ValueType t (some c) errs =
          if (checkSubtype NullType t none []).1 = none ∨
             (checkSubtype NumberType t none []).1 = none ∨
             (checkSubtype StringType t none []).1 = none ∨
             (checkSubtype BooleanType t none []).1 = none ∨
             (checkSubtype ColorType t none []).1 = none ∨
             (checkSubtype ObjectType t none []).1 = none ∨
             (checkSubtype (Ty.array ValueType none) t none []).1 = none then
            (none, errs)
          else
            (some (subtypeErr ValueType t), pushErr (some c) (subtypeErr ValueType t) errs) := by
        rw [checkSubtype.eq_def]
        cases t <;> simp_all
      have hmem : (∃ m ∈ valueMembers, (checkSubtype m t none []).1 = none) ↔
          ((checkSubtype NullType t none []).1 = none ∨
           (checkSubtype NumberType t none []).1 = none ∨
           (checkSubtype StringType t none []).1 = none ∨
           (checkSubtype BooleanType t none []).1 = none ∨
           (checkSubtype ColorType t none []).1 = none ∨
           (checkSubtype ObjectType t none []).1 = none ∨
           (checkSubtype (Ty.array ValueType none) t none []).1 = none) := by
        simp [valueMembers]
      refine ⟨fun h => absurd h hv, fun _ => ?_, ?_, ?_⟩
      · rw [harm, hmem]
        split <;> simp_all
      · rw [harm]
        split <;> simp_all [pushErr]
      · intro msg
        rw [harm]
        split <;> simp_all [pushErr]

/-- C3 (witness): the characterization applied at the concrete actual type
`String` (not `Value`), whose membership probe succeeds via the `String`
member. -/
theorem checkSubtype_value_characterization_witness :
    (StringType : Ty) ≠ ValueType ∧
    ((checkSubtype ValueType StringType (some ctxW) []).1 = none ↔
      ∃ m ∈ valueMembers, (checkSubtype m StringType none []).1 = none) :=
  ⟨by decide,
   (checkSubtype_value_characterization StringType ctxW []).2.1 (by decide)⟩

/-- C4 (counterexample): the claim's equivalence fails at actual type
`Error`: `checkSubtype` with expected type `Array(Number, 3)` succeeds on
`Error` (the bottom-type rule fires first), yet `Error` is not an `Array`
type. -/
theorem array_expected_error_counterexample :
    (checkSubtype (Ty.array NumberType (some 3)) ErrorType none []).1 = none ∧
    ∀ it n, ErrorType ≠ Ty.array it n := by
  constructor
  · simp [checkSubtype.eq_def]
  · intro it n h
    exact Ty.noConfusion h

/-- C4 (amended): for every actual type other than the bottom type `Error`,
`checkSubtype` with expected type `Array(itemType, length)` succeeds iff
the actual type is `Array(itemType2, length2)`, the item types are
compatible, and `length` is unconstrained or equal to `length2`; in
particular the three concrete examples of the claim hold. -/
theorem checkSubtype_array_iff (ei : Ty) (en : Option Nat) (t : Ty)
    (context : Option ParsingContext) (errs : List ParsingError)
    (ht : t ≠ ErrorType) :
    ((checkSubtype (Ty.array ei en) t context errs).1 = none ↔
      ∃ ti tn, t = Ty.array ti tn ∧ (checkSubtype ei ti none []).1 = none ∧
        (en = none ∨ tn = en)) ∧
    (checkSubtype (Ty.array NumberType (some 3)) (Ty.array NumberType (some 3)) none []).1 = none ∧
    (checkSubtype (Ty.array NumberType (some 3)) (Ty.array NumberType (some 4)) none []).1 ≠ none ∧
    (checkSubtype (Ty.array NumberType none) (Ty.array NumberType (some 4)) none []).1 = none := by
  refine ⟨?_, by simp [checkSubtype.eq_def], by simp [checkSubtype.eq_def],
    by simp [checkSubtype.eq_def]⟩
  cases t with
  | array ti tn =>
    rw [checkSubtype.eq_def]
    by_cases hi : (checkSubtype ei ti none []).1 = none
    · cases en with
      | none => simp [hi]
      | some k =>
        cases tn with
        | none => simp [hi]
        | some kk =>
          by_cases hk : kk = k
          · subst hk; simp [hi]
          · simp [hi, hk]
    · simp [hi]
  | error => exact absurd rfl ht
  | «null» => rw [checkSubtype.eq_def]; simp
  | number => rw [checkSubtype.eq_def]; simp
  | string => rw [checkSubtype.eq_def]; simp
  | boolean => rw [checkSubtype.eq_def]; simp
  | object => rw [checkSubtype.eq_def]; simp
  | color => rw [checkSubtype.eq_def]; simp
  | value => rw [checkSubtype.eq_def]; simp

/-- C4 (witness): the amended equivalence applied at expected
`Array(Number, 3)` and actual `Array(Number, 4)`. -/
theorem checkSubtype_array_iff_witness :
    (Ty.array NumberType (some 4) : Ty) ≠ ErrorType ∧
    (((checkSubtype (Ty.array NumberType (some 3)) (Ty.array NumberType (some 4)) none []).1 = none ↔
      ∃ ti tn, (Ty.array NumberType (some 4) : Ty) = Ty.array ti tn ∧
        (checkSubtype NumberType ti none []).1 = none ∧
        ((some 3 : Option Nat) = none ∨ tn = some 3))) :=
  ⟨by decide,
   (checkSubtype_array_iff NumberType (some 3) (Ty.array NumberType (some 4)) none []
     (by decide)).1⟩

/-- C1: in the stop loop of `Curve.parse`, when at least one earlier stop
exists and the previous stop's label is strictly greater than the current
label, parsing fails with the strictly-ascending-order diagnostic at the
current context's key extended by child position `i + 3`; when the previous
label equals the current label the ordering check passes and the loop
continues with parsing the stop's output value. -/
theorem curve_stop_ordering (sub : SubParse) (context : ParsingContext)
    (tail : List JSON) (i : Nat) (stops : List (Rat × Expression))
    (outputType : Option Ty) (errs : List ParsingError) (q : Rat) (v : JSON)
    (prev : Rat × Expression) (hlast : stops.getLast? = some prev) :
    (prev.1 > q →
      curveStops sub context (.num q :: v :: tail) i stops outputType errs =
        (none, errs ++ [⟨context.key ++ keyOfPath [i + 3], ascendMsg⟩])) ∧
    (prev.1 = q →
      curveStops sub context (.num q :: v :: tail) i stops outputType errs =
        (match sub v (context.concat (i + 4) (some (.ofStr "curve")) none) errs with
         | (none, errs') => (none, errs')
         | (some parsed, errs') =>
           curveStops sub context tail (i + 2) (stops ++ [(q, parsed)])
             (match outputType with
              | some t => some t
              | none => some parsed.type) errs')) := by
  constructor
  · intro hgt
    simp [curveStops, hlast, hgt, ParsingContext.error]
  · intro heq
    have hngt : ¬ prev.1 > q := by rw [heq]; exact lt_irrefl q
    simp [curveStops, hlast, hngt]

/-- C1 (witness): a previous stop labelled 2 followed by the label 1, at
loop index 2, fails with the ordering diagnostic at child key `[5]`. -/
theorem curve_stop_ordering_witness :
    ((2 : Rat), Expression.ext "" ErrorType .null).1 > (1 : Rat) ∧
    curveStops subFailW ctxW [.num 1, .null] 2
        [((2 : Rat), Expression.ext "" ErrorType .null)] none [] =
      (none, [⟨ctxW.key ++ keyOfPath [2 + 3], ascendMsg⟩]) :=
  ⟨by norm_num,
   (curve_stop_ordering subFailW ctxW [] 2 [((2 : Rat), Expression.ext "" ErrorType .null)]
      none [] 1 .null ((2 : Rat), Expression.ext "" ErrorType .null) rfl).1 (by norm_num)⟩

/-- C5: when the operator is registered and the kind's parser returns an
expression, then with `expectedType` set the dispatcher returns the parsed
expression iff `checkSubtype` (run with the context as diagnostics sink)
succeeds on it, returning nothing on subtype failure; with `expectedType`
unset the parsed expression is returned unconditionally. -/
theorem dispatcher_subtype_gate (env : ExtEnv) (fuel : Nat)
    (context : ParsingContext) (errs errs₁ : List ParsingError)
    (opName : String) (opRest : List JSON) (d : Definition) (parsed : Expression)
    (hdef : context.definitions opName = some d)
    (hrun : runDefinition env (parseExpression env fuel) d (.str opName :: opRest) context errs =
      (some parsed, errs₁)) :
    (∀ et, context.expectedType = some et →
      (((parseExpression env (fuel + 1) (.arr (.str opName :: opRest)) context errs).1 = some parsed ↔
          (checkSubtypeE et parsed.type (some context) errs₁).1 = none) ∧
        ((checkSubtypeE et parsed.type (some context) errs₁).1 ≠ none →
          (parseExpression env (fuel + 1) (.arr (.str opName :: opRest)) context errs).1 = none))) ∧
    (context.expectedType = none →
      parseExpression env (fuel + 1) (.arr (.str opName :: opRest)) context errs =
        (some parsed, errs₁)) := by
  constructor
  · intro et het
    rw [parseExpression]
    simp only [hdef, hrun, het]
    cases hc : checkSubtypeE et parsed.type (some context) errs₁ with
    | mk r errsx =>
      cases r <;> simp_all
  · intro hnone
    rw [parseExpression]
    simp only [hdef, hrun, hnone]

/-- The kind tag of no type is the lowercase string compared by the
interpolatability check of `curve.js` (which reads `'array'` where the tags
elsewhere in the sources are capitalized), so that check's array clause can
never fire. -/
lemma kind_ne_array_lower (t : Ty) : Ty.kind t ≠ "array" := by
  cases t <;> simp [Ty.kind]

/-- C6: after all stops are parsed, if the interpolation strategy is not
`step` and the resolved output type is none of `Number`, `Color`, or
`Array(Number, _)`, `Curve.parse` fails with the "not interpolatable"
diagnostic (at child key 1) referencing the strategy name and the type;
with strategy `step` any output type is accepted at this point and the
curve expression is returned. -/
theorem curve_interpolatability (sub : SubParse) (args : List JSON)
    (context : ParsingContext) (expectedType : Option Ty)
    (errs errs₁ errs₂ : List ParsingError) (itpJ inJ : JSON) (rest : List JSON)
    (interp : Interp) (inputE : Expression) (stops : List (Rat × Expression)) (t : Ty)
    (hargs : args.drop 1 = itpJ :: inJ :: rest)
    (hlen : 2 ≤ rest.length)
    (hinterp : resolveInterpolation itpJ = .ok interp)
    (hinput : sub inJ (context.concat 2 (some (.ofStr "curve")) none) errs = (some inputE, errs₁))
    (hstops : curveStops sub context rest 0 [] expectedType errs₁ = (some (stops, some t), errs₂)) :
    (interp.name ≠ "step" → t ≠ NumberType → t ≠ ColorType →
      (∀ n, t ≠ Ty.array NumberType n) →
      curveParse sub args context expectedType errs =
        (none, errs₂ ++ [⟨context.key ++ keyOfPath [1], notInterpMsg t interp⟩])) ∧
    (interp = .step →
      curveParse sub args context expectedType errs =
        (some (.curve context.key t interp inputE stops), errs₂)) := by
  have hnlt : ¬ (itpJ :: inJ :: rest).length < 4 := by
    simp only [List.length_cons]; omega
  constructor
  · intro h1 h2 h3 h4
    rw [curveParse]
    simp only [hargs, hnlt, if_false, hinterp, hinput, hstops]
    have hcond : interp.name ≠ "step" ∧ t ≠ NumberType ∧ t ≠ ColorType ∧
        ¬(t.kind = "array" ∧ t.itemTypeOpt = some NumberType) :=
      ⟨h1, h2, h3, fun hk => kind_ne_array_lower t hk.1⟩
    simp only [if_pos hcond, ParsingContext.error]
  · intro hstep
    subst hstep
    rw [curveParse]
    simp only [hargs, hnlt, if_false, hinterp, hinput, hstops]
    have hcond : ¬(Interp.name .step ≠ "step" ∧ t ≠ NumberType ∧ t ≠ ColorType ∧
        ¬(t.kind = "array" ∧ t.itemTypeOpt = some NumberType)) := by
      simp [Interp.name]
    simp only [if_neg hcond]

/-- A sub-parser whose expressions have type `String` (a type that is not
interpolatable). -/
def subS : SubParse := fun _ _ errs => (some (.ext "" StringType .null), errs)

/-- C6 (witness): a `linear` curve whose single stop resolves to type
`String` fails with the "not interpolatable" diagnostic at child key 1. -/
theorem curve_interpolatability_witness :
    curveParse subS [.str "curve", .arr [.str "linear"], .null, .num 0, .null] ctxW none [] =
      (none, [⟨ctxW.key ++ keyOfPath [1], notInterpMsg StringType .linear⟩]) :=
  (curve_interpolatability subS
      [.str "curve", .arr [.str "linear"], .null, .num 0, .null] ctxW none [] [] []
      (.arr [.str "linear"]) .null [.num 0, .null] .linear
      (.ext "" StringType .null) [((0 : Rat), .ext "" StringType .null)] StringType
      rfl (by simp) rfl rfl rfl).1
    (by decide) (by decide) (by decide) (fun n h => Ty.noConfusion h)

/-- Once the running output type of the stop loop is set, a successful loop
returns that same type and only ever appends stops. -/
theorem curveStops_preserve (sub : SubParse) (context : ParsingContext) :
    (rest : List JSON) → ∀ (i : Nat) (stops : List (Rat × Expression)) (u : Ty)
      (errs : List ParsingError) (stops' : List (Rat × Expression))
      (t' : Option Ty) (errs₂ : List ParsingError),
      curveStops sub context rest i stops (some u) errs = (some (stops', t'), errs₂) →
      t' = some u ∧ ∃ more, stops' = stops ++ more
  | [] => by
    intro i stops u errs stops' t' errs₂ h
    rw [curveStops] at h
    simp only [Prod.mk.injEq, Option.some.injEq] at h
    obtain ⟨⟨h1, h2⟩, h3⟩ := h
    exact ⟨h2.symm, [], by simp [h1]⟩
  | [label] => by
    intro i stops u errs stops' t' errs₂ h
    cases label <;> rw [curveStops] at h <;>
      try simp only [ParsingContext.error, Prod.mk.injEq] at h
    case num q =>
      split at h
      · simp [ParsingContext.error] at h
      · split at h
        · simp_all
        · rename_i parsed errs' heq
          simp only [Prod.mk.injEq, Option.some.injEq] at h
          obtain ⟨⟨h1, h2⟩, h3⟩ := h
          exact ⟨h2.symm, [(q, parsed)], h1.symm⟩
    all_goals simp_all
  | label :: value :: tail => by
    intro i stops u errs stops' t' errs₂ h
    cases label <;> rw [curveStops] at h <;>
      try simp only [ParsingContext.error, Prod.mk.injEq] at h
    case num q =>
      split at h
      · simp [ParsingContext.error] at h
      · split at h
        · simp_all
        · rename_i parsed errs' heq
          obtain ⟨ht, more, hmore⟩ :=
            curveStops_preserve sub context tail (i + 2) (stops ++ [(q, parsed)]) u errs'
              stops' t' errs₂ h
          exact ⟨ht, (q, parsed) :: more, by simp [hmore]⟩
    all_goals simp_all

/-- A successful stop loop starting with no output type over a nonempty
stop list appends a first stop whose parsed value's type becomes the
resolved output type. -/
theorem curveStops_first (sub : SubParse) (context : ParsingContext) :
    (rest : List JSON) → ∀ (i : Nat) (stops : List (Rat × Expression))
      (errs : List ParsingError) (stops' : List (Rat × Expression))
      (t' : Option Ty) (errs₂ : List ParsingError),
      rest ≠ [] →
      curveStops sub context rest i stops none errs = (some (stops', t'), errs₂) →
      ∃ l v more, stops' = stops ++ (l, v) :: more ∧ t' = some v.type
  | [] => by
    intro i stops errs stops' t' errs₂ hne _h
    exact absurd rfl hne
  | [label] => by
    intro i stops errs stops' t' errs₂ _hne h
    cases label <;> rw [curveStops] at h <;>
      try simp only [ParsingContext.error, Prod.mk.injEq] at h
    case num q =>
      split at h
      · simp [ParsingContext.error] at h
      · split at h
        · simp_all
        · rename_i parsed errs' heq
          simp only [Prod.mk.injEq, Option.some.injEq] at h
          obtain ⟨⟨h1, h2⟩, h3⟩ := h
          exact ⟨q, parsed, [], h1.symm, h2.symm⟩
    all_goals simp_all
  | label :: value :: tail => by
    intro i stops errs stops' t' errs₂ _hne h
    cases label <;> rw [curveStops] at h <;>
      try simp only [ParsingContext.error, Prod.mk.injEq] at h
    case num q =>
      split at h
      · simp [ParsingContext.error] at h
      · split at h
        · simp_all
        · rename_i parsed errs' heq
          obtain ⟨ht, more, hmore⟩ :=
            curveStops_preserve sub context tail (i + 2) (stops ++ [(q, parsed)])
              parsed.type errs' stops' t' errs₂ h
          exact ⟨q, parsed, more, by simp [hmore], ht⟩
    all_goals simp_all

/-- A successful `Curve.parse` with absent `expectedType` (as when invoked
through the dispatcher) returns a curve node at the context's key whose
type is the type of its first stop's parsed value. -/
theorem curveParse_success_shape (sub : SubParse) (args : List JSON)
    (context : ParsingContext) (errs : List ParsingError) (e : Expression)
    (errs₂ : List ParsingError)
    (h : curveParse sub args context none errs = (some e, errs₂)) :
    ∃ t interp inputE l v ss,
      e = .curve context.key t interp inputE ((l, v) :: ss) ∧ t = v.type := by
  rw [curveParse] at h
  split at h
  · simp [ParsingContext.error] at h
  · rename_i hlen
    split at h
    · rename_i itpJ inJ rest hargs
      split at h
      · simp [ParsingContext.error] at h
      · rename_i interp hinterp
        split at h
        · simp_all
        · rename_i inputE errs₁ hinput
          split at h
          · simp_all
          · rename_i x stops outT errsb hstops
            split at h
            · simp_all
            · rename_i tOut
              have hrest : rest ≠ [] := by
                rw [hargs] at hlen
                simp only [List.length_cons] at hlen
                intro hr
                rw [hr] at hlen
                simp at hlen
              obtain ⟨l, v, more, hmore, ht⟩ :=
                curveStops_first sub context rest 0 [] errs₁ stops (some tOut) errsb hrest hstops
              split at h
              · simp [ParsingContext.error] at h
              · simp only [Prod.mk.injEq, Option.some.injEq] at h
                obtain ⟨h1, h2⟩ := h
                injection ht with ht
                exact ⟨tOut, interp, inputE, l, v, more, by rw [← h1, hmore]; simp, ht⟩
    · simp at h

/-- C10: the dispatcher invokes a registered kind's parser with only the
raw operator array and the context (see `runDefinition`); `Curve.parse` is
therefore always reached with its optional `expectedType` parameter absent,
and every curve expression the dispatcher returns has its type equal to the
parsed type of its first stop's value expression. -/
theorem curve_type_from_first_stop (env : ExtEnv) (fuel : Nat)
    (context : ParsingContext) (errs errs' : List ParsingError)
    (opName : String) (opRest : List JSON) (e : Expression)
    (hdef : context.definitions opName = some .curve)
    (h : parseExpression env (fuel + 1) (.arr (.str opName :: opRest)) context errs =
      (some e, errs')) :
    ∃ errsc t interp inputE l v ss,
      curveParse (parseExpression env fuel) (.str opName :: opRest) context none errs =
        (some e, errsc) ∧
      e = .curve context.key t interp inputE ((l, v) :: ss) ∧
      t = v.type := by
  rw [parseExpression] at h
  simp only [hdef, runDefinition] at h
  cases hcp : curveParse (parseExpression env fuel) (.str opName :: opRest) context none errs with
  | mk r errsc =>
    rw [hcp] at h
    cases r with
    | none => simp at h
    | some p =>
      have hpe : p = e := by
        cases het : context.expectedType with
        | none => rw [het] at h; simp at h; exact h.1
        | some et =>
          rw [het] at h
          cases hcs : checkSubtypeE et p.type (some context) errsc with
          | mk cr cerrs =>
            cases cr with
            | none => simp [hcs] at h; exact h.1
            | some m => simp [hcs] at h
      subst hpe
      obtain ⟨t, interp, inputE, l, v, ss, hshape, ht⟩ :=
        curveParse_success_shape (parseExpression env fuel) (.str opName :: opRest)
          context errs p errsc hcp
      exact ⟨errsc, t, interp, inputE, l, v, ss, rfl, hshape, ht⟩

/-- The raw arguments of a step curve with one stop, with externally parsed
input and output. -/
def curveArgsW : List JSON :=
  [.str "curve", .arr [.str "step"], .arr [.str "e"], .num 0, .arr [.str "e"]]

/-- The expression that `curveArgsW` parses to under `extEnvW` and `ctxW`. -/
def curveExprW : Expression :=
  .curve "" ErrorType .step (.ext "[2]" ErrorType (.arr [.str "e"]))
    [((0 : Rat), .ext "[4]" ErrorType (.arr [.str "e"]))]

/-- C10 (witness): the concrete step curve `curveArgsW`, parsed through the
dispatcher. -/
theorem curve_type_from_first_stop_witness :
    ∃ errsc t interp inputE l v ss,
      curveParse (parseExpression extEnvW 4) (.str "curve" :: curveArgsW.drop 1) ctxW none [] =
        (some curveExprW, errsc) ∧
      curveExprW = .curve ctxW.key t interp inputE ((l, v) :: ss) ∧
      t = v.type :=
  curve_type_from_first_stop extEnvW 4 ctxW [] [] "curve" (curveArgsW.drop 1) curveExprW
    rfl rfl

/-- An external-kind behaviour whose expressions have type `Number`. -/
def envN : ExtEnv := fun _ args ctx errs =>
  (some (.ext ctx.key NumberType (.arr args)), errs)

/-- A root context over `defsW` expecting `Number`. -/
def ctxN : ParsingContext :=
  ParsingContext.make defsW [] (some (.ofTy NumberType)) scopeW 0

/-- C5 (witness): the gate applied to a registered external kind returning
a `Number`-typed expression under expected type `Number`. -/
theorem dispatcher_subtype_gate_witness :
    ctxN.definitions "e" = some (.ext 0) ∧
    runDefinition envN (parseExpression envN 1) (.ext 0) [.str "e"] ctxN [] =
      (some (.ext ctxN.key NumberType (.arr [.str "e"])), []) ∧
    ctxN.expectedType = some (.ofTy NumberType) ∧
    (((parseExpression envN 2 (.arr [.str "e"]) ctxN []).1 =
        some (.ext ctxN.key NumberType (.arr [.str "e"])) ↔
      (checkSubtypeE (.ofTy NumberType)
        (Expression.ext ctxN.key NumberType (.arr [.str "e"])).type (some ctxN) []).1 = none)) :=
  ⟨rfl, rfl, rfl,
   (((dispatcher_subtype_gate envN 1 ctxN [] [] "e" [] (.ext 0)
      (.ext ctxN.key NumberType (.arr [.str "e"])) rfl rfl).1
      (.ofTy NumberType) rfl).1)⟩

end MapboxExpr

namespace MapboxExpr

mutual

/-- Nesting depth of a JSON value; fuel exceeding it suffices for
`parseExpression`. -/
def jdepth : JSON → Nat
  | .null => 0
  | .bool _ => 0
  | .num _ => 0
  | .str _ => 0
  | .arr xs => 1 + jdepthList xs
  | .obj => 0
  | .undef => 0

def jdepthList : List JSON → Nat
  | [] => 0
  | x :: xs => max (jdepth x) (jdepthList xs)

end

lemma jdepth_le_of_mem : ∀ {xs : List JSON} {x : JSON}, x ∈ xs → jdepth x ≤ jdepthList xs
  | x :: xs, y, h => by
    rw [jdepthList]
    rcases List.mem_cons.1 h with h | h
    · subst h; exact le_max_left _ _
    · exact le_trans (jdepth_le_of_mem h) (le_max_right _ _)

/-- The result `r` of a parsing step, started with shared list contents
`errs`, observes the error discipline: on failure exactly one diagnostic
was appended, on success the list is unchanged. -/
def FailsWithOne (errs : List ParsingError) (r : Option α × List ParsingError) : Prop :=
  (r.1 = none → ∃ e, r.2 = errs ++ [e]) ∧ (∀ p, r.1 = some p → r.2 = errs)

/-- Every externally registered kind observes the error discipline. -/
def GoodEnv (env : ExtEnv) : Prop :=
  ∀ id args context errs, FailsWithOne errs (env id args context errs)

lemma failsWithOne_error (c : ParsingContext) (msg : String) (keys : List Nat)
    (errs : List ParsingError) :
    FailsWithOne (α := α) errs (c.error msg keys errs) :=
  ⟨fun _ => ⟨_, rfl⟩, fun p hp => by simp [ParsingContext.error] at hp⟩

/-- `checkSubtype` with a sink either succeeds leaving the sink unchanged
or fails appending exactly the single outer diagnostic at the context's
key. -/
lemma checkSubtype_cases (expected t : Ty) (c : ParsingContext)
    (errs : List ParsingError) :
    checkSubtype expected t (some c) errs = (none, errs) ∨
    ∃ m, checkSubtype expected t (some c) errs = (some m, errs ++ [⟨c.key, m⟩]) := by
  rw [checkSubtype.eq_def]
  split
  · left; rfl
  · left; rfl
  · split
    · left; rfl
    · right; exact ⟨_, rfl⟩
  · split
    · right; exact ⟨_, rfl⟩
    · split
      · split
        · left; rfl
        · right; exact ⟨_, rfl⟩
      · left; rfl
  · right; exact ⟨_, rfl⟩
  · split
    · left; rfl
    · right; exact ⟨_, rfl⟩

lemma checkSubtypeStr_cases (s : String) (t : Ty) (c : ParsingContext)
    (errs : List ParsingError) :
    checkSubtypeStr s t (some c) errs = (none, errs) ∨
    ∃ m, checkSubtypeStr s t (some c) errs = (some m, errs ++ [⟨c.key, m⟩]) := by
  cases t <;> simp [checkSubtypeStr, pushErr]

lemma checkSubtypeE_cases (et : ETy) (t : Ty) (c : ParsingContext)
    (errs : List ParsingError) :
    checkSubtypeE et t (some c) errs = (none, errs) ∨
    ∃ m, checkSubtypeE et t (some c) errs = (some m, errs ++ [⟨c.key, m⟩]) := by
  cases et with
  | ofTy T => exact checkSubtype_cases T t c errs
  | ofStr s => exact checkSubtypeStr_cases s t c errs

end MapboxExpr

namespace MapboxExpr

lemma curveStops_fo (sub : SubParse) (context : ParsingContext) :
    (rest : List JSON) → ∀ (i : Nat) (stops : List (Rat × Expression))
      (outT : Option Ty) (errs : List ParsingError),
      (∀ j ctx' errs', (j ∈ rest ∨ j = .undef) → FailsWithOne errs' (sub j ctx' errs')) →
      FailsWithOne errs (curveStops sub context rest i stops outT errs)
  | [] => by
    intro i stops outT errs _hsub
    rw [curveStops]
    exact ⟨fun h => Option.noConfusion h, fun p _ => rfl⟩
  | [label] => by
    intro i stops outT errs hsub
    cases label <;> rw [curveStops]
    case num q =>
      split
      · exact failsWithOne_error context ascendMsg [i + 3] errs
      · cases hs : sub .undef (context.concat (i + 4) (some (.ofStr "curve")) none) errs with
        | mk sr errsx =>
          have hfo := hsub .undef (context.concat (i + 4) (some (.ofStr "curve")) none) errs
            (Or.inr rfl)
          rw [hs] at hfo
          cases sr with
          | none =>
            exact ⟨fun _ => hfo.1 rfl, fun p hp => Option.noConfusion hp⟩
          | some parsed =>
            have hx : errsx = errs := hfo.2 parsed rfl
            exact ⟨fun h => Option.noConfusion h, fun p _ => hx⟩
    all_goals first
      | exact failsWithOne_error context litLabelMsg [i + 3] errs
      | exact fun _ h => JSON.noConfusion h
  | label :: value :: tail => by
    intro i stops outT errs hsub
    cases label <;> rw [curveStops]
    case num q =>
      split
      · exact failsWithOne_error context ascendMsg [i + 3] errs
      · cases hs : sub value (context.concat (i + 4) (some (.ofStr "curve")) none) errs with
        | mk sr errsx =>
          have hfo := hsub value (context.concat (i + 4) (some (.ofStr "curve")) none) errs
            (Or.inl (by simp))
          rw [hs] at hfo
          cases sr with
          | none =>
            exact ⟨fun _ => hfo.1 rfl, fun p hp => Option.noConfusion hp⟩
          | some parsed =>
            have hx : errsx = errs := hfo.2 parsed rfl
            subst hx
            exact curveStops_fo sub context tail (i + 2) (stops ++ [(q, parsed)])
              (match outT with | some t => some t | none => some parsed.type) errsx
              (fun j c e hj => hsub j c e (by
                rcases hj with hj | hj
                · exact Or.inl (by simp [hj])
                · exact Or.inr hj))
    all_goals first
      | exact failsWithOne_error context litLabelMsg [i + 3] errs
      | exact fun _ h => JSON.noConfusion h

end MapboxExpr

namespace MapboxExpr

lemma curveParse_fo (sub : SubParse) (args : List JSON) (context : ParsingContext)
    (expT : Option Ty) (errs : List ParsingError)
    (hsub : 4 ≤ (args.drop 1).length →
      ∀ j ctx' errs', (j ∈ args ∨ j = .undef) → FailsWithOne errs' (sub j ctx' errs')) :
    FailsWithOne errs (curveParse sub args context expT errs) := by
  rw [curveParse]
  split
  · exact failsWithOne_error context _ [] errs
  · rename_i hlen
    have hlen' : 4 ≤ (args.drop 1).length := le_of_not_lt hlen
    have hsub' := hsub hlen'
    split
    · rename_i itpJ inJ rest hargs
      have hmem : ∀ x, x ∈ itpJ :: inJ :: rest → x ∈ args := by
        intro x hx
        exact List.mem_of_mem_drop (hargs ▸ hx)
      have hrest : rest ≠ [] := by
        rw [hargs] at hlen'
        simp only [List.length_cons] at hlen'
        intro hr
        rw [hr] at hlen'
        simp at hlen'
      split
      · exact failsWithOne_error context _ _ errs
      · rename_i interp hinterp
        split
        · rename_i errs₁ hin
          have hinfo := hsub' inJ (context.concat 2 (some (.ofStr "curve")) none) errs
            (Or.inl (hmem inJ (by simp)))
          rw [hin] at hinfo
          exact ⟨fun _ => hinfo.1 rfl, fun p hp => Option.noConfusion hp⟩
        · rename_i inputE errs₁ hin
          have hinfo := hsub' inJ (context.concat 2 (some (.ofStr "curve")) none) errs
            (Or.inl (hmem inJ (by simp)))
          rw [hin] at hinfo
          have he₁ : errs₁ = errs := hinfo.2 inputE rfl
          have hloopfo := curveStops_fo sub context rest 0 [] expT errs₁
            (fun j c e hj => hsub' j c e (by
              rcases hj with hj | hj
              · exact Or.inl (hmem j (by simp [hj]))
              · exact Or.inr hj))
          split
          · rename_i errs₂ hst
            rw [hst] at hloopfo
            refine ⟨fun _ => ?_, fun p hp => Option.noConfusion hp⟩
            obtain ⟨e, he⟩ := hloopfo.1 rfl
            exact ⟨e, by rw [he, he₁]⟩
          · rename_i x stops outT errs₂ hst
            rw [hst] at hloopfo
            have he₂ : errs₂ = errs₁ := hloopfo.2 (stops, outT) rfl
            split
            · exfalso
              cases expT with
              | some u =>
                obtain ⟨ht, _⟩ := curveStops_preserve sub context rest 0 [] u errs₁
                  stops none errs₂ hst
                exact Option.noConfusion ht
              | none =>
                obtain ⟨l, v, more, _, ht⟩ := curveStops_first sub context rest 0 []
                  errs₁ stops none errs₂ hrest hst
                exact Option.noConfusion ht
            · rename_i t
              split
              · refine ⟨fun _ => ⟨_, by rw [he₂, he₁]; rfl⟩, fun p hp => Option.noConfusion hp⟩
              · exact ⟨fun h => Option.noConfusion h, fun p _ => by rw [he₂, he₁]⟩
    · rename_i hnc
      exfalso
      rcases hd : args.drop 1 with _ | ⟨a, _ | ⟨b, r⟩⟩
      · rw [hd] at hlen'; simp at hlen'
      · rw [hd] at hlen'; simp at hlen'
      · exact hnc a b r hd

end MapboxExpr

namespace MapboxExpr

/-- The expected-type gate at the end of the dispatcher preserves the error
discipline of the parser result it filters. -/
lemma gate_fo (context : ParsingContext) (errs : List ParsingError)
    (r : Option Expression × List ParsingError) (hr : FailsWithOne errs r) :
    FailsWithOne errs
      (match r with
       | (none, errs₁) => ((none : Option Expression), errs₁)
       | (some parsed, errs₁) =>
         match context.expectedType with
         | some et =>
           (match checkSubtypeE et parsed.type (some context) errs₁ with
            | (some _, errs₂) => (none, errs₂)
            | (none, errs₂) => (some parsed, errs₂))
         | none => (some parsed, errs₁)) := by
  split
  · exact ⟨fun _ => hr.1 rfl, fun p hp => Option.noConfusion hp⟩
  · rename_i x parsed errs₁
    have he₁ : errs₁ = errs := hr.2 parsed rfl
    subst he₁
    split
    · rename_i et het
      split
      · rename_i y m errs₂ hcs
        rcases checkSubtypeE_cases et parsed.type context errs₁ with hcs2 | ⟨m2, hcs2⟩ <;>
          rw [hcs2] at hcs
        · exact Option.noConfusion (congrArg Prod.fst hcs)
        · injection hcs with hcs1 hcs2x
          exact ⟨fun _ => ⟨_, hcs2x.symm⟩, fun p hp => Option.noConfusion hp⟩
      · rename_i y errs₂ hcs
        rcases checkSubtypeE_cases et parsed.type context errs₁ with hcs2 | ⟨m2, hcs2⟩ <;>
          rw [hcs2] at hcs
        · injection hcs with hcs1 hcs2x
          exact ⟨fun h => Option.noConfusion h, fun p _ => hcs2x.symm⟩
        · exact Option.noConfusion (congrArg Prod.fst hcs)
    · exact ⟨fun h => Option.noConfusion h, fun p _ => rfl⟩

/-- `parseExpression` observes the error discipline: with fuel exceeding
the JSON depth and a well-behaved registry environment, a call fails iff it
appended a diagnostic, appending exactly one, and leaves the shared list
unchanged when it returns an expression. -/
theorem parseExpression_fo (env : ExtEnv) (henv : GoodEnv env) :
    ∀ (fuel : Nat) (j : JSON) (context : ParsingContext) (errs : List ParsingError),
      jdepth j < fuel →
      FailsWithOne errs (parseExpression env fuel j context errs) := by
  intro fuel
  induction fuel with
  | zero =>
    intro j c e h
    exact absurd h (Nat.not_lt_zero _)
  | succ fuel ih =>
    intro j context errs hdepth
    have harr : ∀ (opName : String) (opRest : List JSON) (errs : List ParsingError),
        (4 ≤ ((JSON.str opName :: opRest).drop 1).length →
          ∀ j' ctx' errs', (j' ∈ JSON.str opName :: opRest ∨ j' = .undef) →
            FailsWithOne errs' (parseExpression env fuel j' ctx' errs')) →
        FailsWithOne errs
          (parseExpression env (fuel + 1) (.arr (.str opName :: opRest)) context errs) := by
      intro opName opRest errs hsub
      rw [parseExpression]
      cases hd : context.definitions opName with
      | none =>
        exact failsWithOne_error context _ [0] errs
      | some d =>
        have hruns : FailsWithOne errs
            (runDefinition env (parseExpression env fuel) d (.str opName :: opRest) context errs) := by
          cases d with
          | curve =>
            exact curveParse_fo (parseExpression env fuel) (.str opName :: opRest) context
              none errs hsub
          | ext id => exact henv id (.str opName :: opRest) context errs
        exact gate_fo context errs _ hruns
    cases j with
    | arr xs =>
      have hfuel0 : jdepthList xs < fuel + 1 := by
        rw [jdepth] at hdepth
        omega
      have helem : ∀ j', j' ∈ xs ∨ j' = JSON.undef → jdepth j' < fuel := by
        intro j' hj'
        have hlist : jdepthList xs < fuel := by
          rw [jdepth] at hdepth
          omega
        rcases hj' with hj' | hj'
        · exact lt_of_le_of_lt (jdepth_le_of_mem hj') hlist
        · rw [hj']
          simp only [jdepth]
          omega
      cases xs with
      | nil =>
        rw [parseExpression]
        exact failsWithOne_error context _ [] errs
      | cons op opRest =>
        cases op
        case str opName =>
          exact harr opName opRest errs
            (fun _ j' c' e' hj' => ih j' c' e' (helem j' (by
              rcases hj' with hj' | hj'
              · exact Or.inl hj'
              · exact Or.inr hj')))
        all_goals
          rw [parseExpression]
        all_goals
          first
          | exact failsWithOne_error context _ [0] errs
          | exact fun _ h => JSON.noConfusion h
    | undef =>
      rw [parseExpression]
      exact failsWithOne_error context _ [] errs
    | obj =>
      rw [parseExpression]
      exact failsWithOne_error context _ [] errs
    | «null» =>
      exact harr "literal" [.null] errs (fun hlen => absurd hlen (by simp))
    | bool b =>
      exact harr "literal" [.bool b] errs (fun hlen => absurd hlen (by simp))
    | num q =>
      exact harr "literal" [.num q] errs (fun hlen => absurd hlen (by simp))
    | str s =>
      exact harr "literal" [.str s] errs (fun hlen => absurd hlen (by simp))

end MapboxExpr

namespace MapboxExpr

/-- C8: with a registry containing the Curve kind and external kinds that
observe the error discipline, a `parseExpression` call returns nothing iff
it appended a `ParsingError` to the shared list; each failure appends
exactly one diagnostic (callers propagate a child's failure without
re-recording), and a call that returns an expression leaves the shared list
unchanged. -/
theorem parse_error_discipline (env : ExtEnv) (fuel : Nat) (j : JSON)
    (context : ParsingContext) (errs : List ParsingError)
    (henv : GoodEnv env)
    (_hcurve : context.definitions "curve" = some .curve)
    (hdepth : jdepth j < fuel) :
    ((parseExpression env fuel j context errs).1 = none ↔
      (parseExpression env fuel j context errs).2 ≠ errs) ∧
    ((parseExpression env fuel j context errs).1 = none →
      ∃ e, (parseExpression env fuel j context errs).2 = errs ++ [e]) ∧
    (∀ p, (parseExpression env fuel j context errs).1 = some p →
      (parseExpression env fuel j context errs).2 = errs) := by
  have hfo := parseExpression_fo env henv fuel j context errs hdepth
  refine ⟨⟨fun h => ?_, fun h => ?_⟩, hfo.1, hfo.2⟩
  · obtain ⟨e, he⟩ := hfo.1 h
    rw [he]
    intro hx
    have := congrArg List.length hx
    simp at this
  · cases hr : (parseExpression env fuel j context errs).1 with
    | none => rfl
    | some p => exact absurd (hfo.2 p hr) h

/-- `envN` observes the error discipline (it always succeeds without
touching the shared list). -/
lemma goodEnv_envN : GoodEnv envN :=
  fun _ _ _ _ => ⟨fun h => Option.noConfusion h, fun _ _ => rfl⟩

/-- C8 (witness): the discipline applied to the empty-array input, which
fails with exactly one diagnostic. -/
theorem parse_error_discipline_witness :
    ((parseExpression envN 2 (.arr []) ctxW []).1 = none ↔
      (parseExpression envN 2 (.arr []) ctxW []).2 ≠ []) ∧
    ((parseExpression envN 2 (.arr []) ctxW []).1 = none →
      ∃ e, (parseExpression envN 2 (.arr []) ctxW []).2 = [] ++ [e]) ∧
    (∀ p, (parseExpression envN 2 (.arr []) ctxW []).1 = some p →
      (parseExpression envN 2 (.arr []) ctxW []).2 = []) :=
  parse_error_discipline envN 2 (.arr []) ctxW [] goodEnv_envN rfl (by decide)

end MapboxExpr

namespace MapboxExpr

-- C7 counterexample: extra element in the interpolation array survives parsing
-- but is dropped by serialize
def jNonCanon : JSON :=
  .arr [.str "curve", .arr [.str "step", .num 9], .arr [.str "e"], .num 0, .arr [.str "e"]]

/-- C7 (counterexample): the valid Curve JSON `["curve", ["step", 9], ...]`
parses successfully (extra elements after the interpolation name are
ignored by `Curve.parse`), but serializes to `["curve", ["step"], ...]`,
so `serialize(parse(j)) ≠ j`. -/
theorem curve_roundtrip_counterexample :
    (parseExpression extEnvW 5 jNonCanon ctxW []).1.isSome = true ∧
    (parseExpression extEnvW 5 jNonCanon ctxW []).1.map Expression.serialize ≠ some jNonCanon := by
  constructor
  · rfl
  · intro h
    have : (parseExpression extEnvW 5 jNonCanon ctxW []).1.map Expression.serialize =
        some (.arr [.str "curve", .arr [.str "step"], .arr [.str "e"], .num 0, .arr [.str "e"]]) := rfl
    rw [this] at h
    simp [jNonCanon] at h

end MapboxExpr

namespace MapboxExpr

def isArrB : JSON → Bool
  | .arr _ => true
  | _ => false

/-- The interpolation arrays that `Curve#serialize` can produce: exactly
`[name]`, `[name, base]`, `[name, c0, c1, c2, c3]` for the respective
strategies.  `Curve.parse` also accepts non-canonical forms (extra trailing
elements after "step"/"linear"/"exponential"), which serialization drops. -/
def canonInterp : JSON → Bool
  | .arr [.str "step"] => true
  | .arr [.str "linear"] => true
  | .arr [.str "exponential", .num _] => true
  | .arr [.str "cubic-bezier", .num _, .num _, .num _, .num _] => true
  | _ => false

mutual

/-- A JSON value is in canonical curve form when every curve operator array
inside it has a canonical interpolation array and operator-array (not bare
scalar) input and stop outputs, recursively. -/
def curveCanon : JSON → Bool
  | .arr (.str "curve" :: itpJ :: inJ :: rest) =>
      canonInterp itpJ && isArrB inJ && curveCanon inJ && stopsCanon rest
  | _ => true

/-- Canonical form of the flattened label/value tail of a curve. -/
def stopsCanon : List JSON → Bool
  | [] => true
  | [_] => true
  | _ :: v :: rest => isArrB v && curveCanon v && stopsCanon rest

end

end MapboxExpr

namespace MapboxExpr

/-- A canonical interpolation array that resolves successfully serializes
back to itself. -/
lemma canonInterp_roundtrip (itpJ : JSON) (interp : Interp)
    (hc : canonInterp itpJ = true)
    (hr : resolveInterpolation itpJ = .ok interp) :
    serializeInterp interp = itpJ := by
  rw [canonInterp.eq_def] at hc
  split at hc
  · rw [resolveInterpolation] at hr
    simp only [Except.ok.injEq] at hr
    rw [← hr]
    rfl
  · rw [resolveInterpolation] at hr
    simp only [Except.ok.injEq] at hr
    rw [← hr]
    rfl
  · rename_i b
    rw [resolveInterpolation] at hr
    simp only [List.headD, Except.ok.injEq] at hr
    rw [← hr]
    rfl
  · rename_i a b c d
    rw [resolveInterpolation] at hr
    split at hr
    · exact Except.noConfusion hr
    · simp only [Except.ok.injEq] at hr
      rw [← hr]
      rfl
  · exact Bool.noConfusion hc

/-- `parseExpression` never returns an expression for the JavaScript value
`undefined`. -/
lemma parse_undef_none (env : ExtEnv) :
    ∀ (fuel : Nat) (context : ParsingContext) (errs : List ParsingError),
      (parseExpression env fuel .undef context errs).1 = none
  | 0, _, _ => rfl
  | _fuel + 1, _, _ => rfl

end MapboxExpr

namespace MapboxExpr

/-- Decomposition of a successful `Curve.parse`: the argument shape, the
resolved strategy, the parsed input, the completed stop loop and the
constructed node. -/
lemma curveParse_success_decompose (sub : SubParse) (args : List JSON)
    (context : ParsingContext) (expT : Option Ty) (errs : List ParsingError)
    (e : Expression) (errs₂ : List ParsingError)
    (h : curveParse sub args context expT errs = (some e, errs₂)) :
    ∃ itpJ inJ rest interp inputE errs₁ stops t,
      args.drop 1 = itpJ :: inJ :: rest ∧
      4 ≤ (args.drop 1).length ∧
      resolveInterpolation itpJ = .ok interp ∧
      sub inJ (context.concat 2 (some (.ofStr "curve")) none) errs = (some inputE, errs₁) ∧
      curveStops sub context rest 0 [] expT errs₁ = (some (stops, some t), errs₂) ∧
      e = .curve context.key t interp inputE stops := by
  rw [curveParse] at h
  split at h
  · simp [ParsingContext.error] at h
  · rename_i hlen
    split at h
    · rename_i itpJ inJ rest hargs
      split at h
      · simp [ParsingContext.error] at h
      · rename_i interp hinterp
        split at h
        · simp_all
        · rename_i inputE errs₁ hinput
          split at h
          · simp_all
          · rename_i x stops outT errsb hstops
            split at h
            · simp_all
            · rename_i tOut
              split at h
              · simp [ParsingContext.error] at h
              · simp only [Prod.mk.injEq, Option.some.injEq] at h
                obtain ⟨h1, h2⟩ := h
                subst h2
                exact ⟨itpJ, inJ, rest, interp, inputE, errs₁, stops, tOut,
                  hargs, le_of_not_lt hlen, hinterp, hinput, hstops, h1.symm⟩
    · rename_i hnc
      exfalso
      have hlen' := le_of_not_lt hlen
      rcases hd : args.drop 1 with _ | ⟨a, _ | ⟨b, r⟩⟩
      · rw [hd] at hlen'; simp at hlen'
      · rw [hd] at hlen'; simp at hlen'
      · exact hnc a b r hd

/-- A successful stop loop over a canonical flattened stop list, with a
sub-parser that round-trips the stop outputs it accepts and rejects
`undefined`, appends stops that serialize back to exactly that list. -/
lemma curveStops_serial (sub : SubParse) (context : ParsingContext) :
    (rest : List JSON) → ∀ (i : Nat) (stops0 : List (Rat × Expression))
      (outT : Option Ty) (errs : List ParsingError)
      (stops : List (Rat × Expression)) (t' : Option Ty) (errs₂ : List ParsingError),
      (∀ v, v ∈ rest → ∀ (k : Nat) (errs' : List ParsingError) (e' : Expression)
        (errs'' : List ParsingError),
        isArrB v = true → curveCanon v = true →
        sub v (context.concat k (some (.ofStr "curve")) none) errs' = (some e', errs'') →
        e'.serialize = v) →
      (∀ ctx' errs', (sub .undef ctx' errs').1 = none) →
      stopsCanon rest = true →
      curveStops sub context rest i stops0 outT errs = (some (stops, t'), errs₂) →
      ∃ newStops, stops = stops0 ++ newStops ∧ serializeStops newStops = rest
  | [] => by
    intro i stops0 outT errs stops t' errs₂ _hsub _hu _hc h
    rw [curveStops] at h
    simp only [Prod.mk.injEq, Option.some.injEq] at h
    exact ⟨[], by simp [h.1.1.symm], rfl⟩
  | [label] => by
    intro i stops0 outT errs stops t' errs₂ _hsub hu _hc h
    cases label <;> rw [curveStops] at h <;>
      try simp only [ParsingContext.error, Prod.mk.injEq] at h
    case num q =>
      split at h
      · simp [ParsingContext.error] at h
      · split at h
        · simp at h
        · rename_i parsed errsx hs
          have := hu (context.concat (i + 4) (some (.ofStr "curve")) none) errs
          rw [hs] at this
          exact Option.noConfusion this
    all_goals simp_all
  | label :: value :: tail => by
    intro i stops0 outT errs stops t' errs₂ hsub hu hc h
    cases label <;> rw [curveStops] at h <;>
      try simp only [ParsingContext.error, Prod.mk.injEq] at h
    case num q =>
      rw [stopsCanon] at hc
      simp only [Bool.and_eq_true] at hc
      obtain ⟨⟨hva, hvc⟩, htc⟩ := hc
      split at h
      · simp [ParsingContext.error] at h
      · split at h
        · simp at h
        · rename_i parsed errsx hs
          have hser : parsed.serialize = value :=
            hsub value (by simp) (i + 4) errs parsed errsx hva hvc hs
          obtain ⟨newStops, hstops, hserial⟩ :=
            curveStops_serial sub context tail (i + 2) (stops0 ++ [(q, parsed)])
              _ errsx stops t' errs₂
              (fun v hv k e' ex ey hia hcv hsv =>
                hsub v (by simp [hv]) k e' ex ey hia hcv hsv)
              hu htc h
          refine ⟨(q, parsed) :: newStops, by simp [hstops], ?_⟩
          rw [serializeStops, hser, hserial]
    all_goals simp_all

end MapboxExpr

namespace MapboxExpr

/-- Every externally registered kind round-trips: an expression it returns
serializes to the raw operator array it parsed. -/
def ExtSerialGood (env : ExtEnv) : Prop :=
  ∀ id args context errs e errs', env id args context errs = (some e, errs') →
    e.serialize = .arr args

/-- C7 (amended): for every Curve JSON in canonical form — the
interpolation array exactly as `serialize` produces it, the input and the
stop outputs operator arrays (not bare scalars) in canonical form
recursively — whose parse through the dispatcher succeeds, provided the
externally registered kinds round-trip their raw arguments and only the
operator "curve" maps to the Curve kind, `serialize(parse(j)) = j`. -/
theorem curve_roundtrip_canonical (env : ExtEnv) (D : String → Option Definition)
    (henv : ExtSerialGood env)
    (honly : ∀ op, D op = some .curve → op = "curve") :
    ∀ (fuel : Nat) (j : JSON) (context : ParsingContext) (errs : List ParsingError)
      (e : Expression) (errs₂ : List ParsingError),
      context.definitions = D →
      isArrB j = true → curveCanon j = true →
      parseExpression env fuel j context errs = (some e, errs₂) →
      e.serialize = j := by
  intro fuel
  induction fuel with
  | zero =>
    intro j context errs e errs₂ _ _ _ h
    rw [parseExpression] at h
    exact Option.noConfusion (congrArg Prod.fst h)
  | succ fuel ih =>
    intro j context errs e errs₂ hdefs hisarr hcanon h
    cases j <;> try simp [isArrB] at hisarr
    case arr xs =>
    cases xs with
    | nil =>
      rw [parseExpression] at h
      simp [ParsingContext.error] at h
    | cons op opRest =>
      cases op
      case «null» | bool _ | num _ | arr _ | obj | undef =>
        rw [parseExpression] at h
        all_goals try (intros; rename_i hx; exact JSON.noConfusion hx)
        simp [ParsingContext.error] at h
      case str opName =>
      rw [parseExpression] at h
      rw [hdefs] at h
      cases hop : D opName with
      | none =>
        rw [hop] at h
        simp [ParsingContext.error] at h
      | some d =>
        rw [hop] at h
        cases d with
        | ext id =>
          simp only [runDefinition] at h
          cases hext : env id (.str opName :: opRest) context errs with
          | mk r errs₁ =>
            rw [hext] at h
            cases r with
            | none => simp at h
            | some p =>
              have hpe : p = e := by
                cases het : context.expectedType with
                | none => rw [het] at h; simp at h; exact h.1
                | some et =>
                  rw [het] at h
                  cases hcs : checkSubtypeE et p.type (some context) errs₁ with
                  | mk cr cerrs =>
                    cases cr with
                    | none => simp [hcs] at h; exact h.1
                    | some m => simp [hcs] at h
              subst hpe
              exact henv id (.str opName :: opRest) context errs p errs₁ hext
        | curve =>
          have hopName : opName = "curve" := honly opName hop
          subst hopName
          simp only [runDefinition] at h
          cases hcp : curveParse (parseExpression env fuel) (.str "curve" :: opRest)
              context none errs with
          | mk r errsc =>
            rw [hcp] at h
            cases r with
            | none => simp at h
            | some p =>
              have hpe : p = e := by
                cases het : context.expectedType with
                | none => rw [het] at h; simp at h; exact h.1
                | some et =>
                  rw [het] at h
                  cases hcs : checkSubtypeE et p.type (some context) errsc with
                  | mk cr cerrs =>
                    cases cr with
                    | none => simp [hcs] at h; exact h.1
                    | some m => simp [hcs] at h
              subst hpe
              obtain ⟨itpJ, inJ, rest, interp, inputE, errs₁, stops, t,
                hargs, hlen, hinterp, hinput, hstops, hshape⟩ :=
                curveParse_success_decompose (parseExpression env fuel)
                  (.str "curve" :: opRest) context none errs p errsc hcp
              have hopRest : opRest = itpJ :: inJ :: rest := by simpa using hargs
              subst hopRest
              rw [curveCanon] at hcanon
              simp only [Bool.and_eq_true] at hcanon
              obtain ⟨⟨⟨hci, hia⟩, hcin⟩, hcs⟩ := hcanon
              have hdefs' : ∀ k et b, (context.concat k et b).definitions = D := by
                intro k et b
                simp [ParsingContext.concat, ParsingContext.make, hdefs]
              have hinser : inputE.serialize = inJ :=
                ih inJ (context.concat 2 (some (.ofStr "curve")) none) errs inputE errs₁
                  (hdefs' 2 _ _) hia hcin hinput
              obtain ⟨newStops, hst0, hstser⟩ :=
                curveStops_serial (parseExpression env fuel) context rest 0 [] none errs₁
                  stops (some t) errsc
                  (fun v hv k errs' e' errs'' hiav hcv hsv =>
                    ih v (context.concat k (some (.ofStr "curve")) none) errs' e' errs''
                      (hdefs' k _ _) hiav hcv hsv)
                  (fun ctx' errs' => parse_undef_none env fuel ctx' errs')
                  hcs hstops
              rw [hshape, Expression.serialize]
              rw [canonInterp_roundtrip itpJ interp hci hinterp, hinser]
              have : stops = newStops := by simpa using hst0
              rw [this, hstser]

end MapboxExpr

namespace MapboxExpr

/-- `extEnvW` round-trips: its expressions carry their raw array. -/
lemma extSerialGood_extEnvW : ExtSerialGood extEnvW := by
  intro id args c errs e errs' h
  cases h
  rfl

/-- In `defsW`, only the operator "curve" maps to the Curve kind. -/
lemma onlyCurve_defsW : ∀ op, defsW op = some .curve → op = "curve" := by
  intro op h
  simp only [defsW] at h
  split_ifs at h <;> simp_all

/-- C7 (witness): the round-trip theorem applied to the concrete canonical
step curve `curveArgsW`. -/
theorem curve_roundtrip_canonical_witness :
    curveExprW.serialize = .arr curveArgsW :=
  curve_roundtrip_canonical extEnvW defsW extSerialGood_extEnvW onlyCurve_defsW
    5 (.arr curveArgsW) ctxW [] curveExprW [] rfl rfl (by decide) rfl

end MapboxExpr
